import Mathlib

/-!
Verification of the starship segment-composition and rendering core
(`src/module.rs`) and the kubernetes module boundary
(`src/modules/kubernetes.rs`).

Styled strings are modelled by their text content: styles are opaque
pass-through data that never influence widths, ordering or emptiness, so
an `ANSIString` is embedded as a `String`.  External collaborators that
are not part of the given sources (the segment type from `segment.rs`,
the `Shell` enumeration, the regex engine, yaml parsing, file access and
the string formatter) are modelled from the spec, as noted on each
definition.
-/

namespace Starship

/-- Modelled from the spec: `FillSegment` (from `segment.rs`, not among the
given sources) carries the fill string to repeat; its style is opaque and
omitted. -/
structure FillSegment where
  value : String
deriving DecidableEq, Repr

/-- Modelled from the spec: a plain styled text segment (from `segment.rs`);
the style is opaque and omitted. -/
structure TextSegment where
  value : String
deriving DecidableEq, Repr

/-- Modelled from the spec: the tagged segment variant from `segment.rs` —
plain styled text, a fill directive, or a line terminator. -/
inductive Segment where
  | fill : FillSegment → Segment
  | text : TextSegment → Segment
  | lineTerm : Segment
deriving DecidableEq, Repr

/-- Modelled from the spec: a line terminator renders as a newline. -/
def LINE_TERMINATOR_STRING : String := "\n"

/-- Modelled from the spec: the resolved text value of a segment, as consumed
by `Module::is_empty` — the fill string for a fill, the text for styled text,
and a newline for a line terminator (a bare line break changes the output);
this is `Segment::value` in `segment.rs`. -/
def Segment.value : Segment → String
  | .fill f => f.value
  | .text t => t.value
  | .lineTerm => LINE_TERMINATOR_STRING

/-- Modelled from the spec: `raw_text()` is the underlying text content, the
empty string for a fill or a line terminator. -/
def Segment.raw_text : Segment → String
  | .fill _ => ""
  | .text t => t.value
  | .lineTerm => ""

/-- Modelled from the spec: the grapheme-aware display width of a segment —
zero for fills and line terminators prior to resolution, the user-perceived
character count for styled text (grapheme clusters are embedded as
characters). -/
def Segment.width_graphemes : Segment → Nat
  | .fill _ => 0
  | .text t => t.value.length
  | .lineTerm => 0

/-- `s` concatenated with itself `n` times, the embedding of `str::repeat`. -/
def repeatStr (s : String) : Nat → String
  | 0 => ""
  | n + 1 => s ++ repeatStr s n

/-- Modelled from the spec: rendering a fill against an optional resolved
width repeats its fill string that many times; a missing width yields an
empty fill. -/
def FillSegment.ansi_string (f : FillSegment) : Option Nat → String
  | some w => repeatStr f.value w
  | none => ""

/-- Modelled from the spec: rendering a non-fill segment produces its value
wrapped in its (opaque) style; the embedding keeps the text. -/
def Segment.ansi_string (s : Segment) : String :=
  s.value

/-- Whether a segment is a fill directive. -/
def Segment.isFill : Segment → Bool
  | .fill _ => true
  | _ => false

/-- Whether a segment is a line terminator. -/
def Segment.isLineTerm : Segment → Bool
  | .lineTerm => true
  | _ => false

/-!
The loop of `ansi_line` (`module.rs` lines 183–202): walk the segments,
pushing rendered non-fill segments onto the current buffer and accumulating
their width into `used`; on a fill, push the buffer with its fill marker onto
the pending chunks and reset the buffer; stop after a line terminator.  The
iterator is embedded by also returning the unconsumed suffix.
-/

/-- The segment-walking loop of `ansi_line`: returns the accumulated used
width, the current buffer, the pending chunks, and the segments left
unconsumed by this invocation. -/
def processSegments :
    List Segment → Nat → List String → List (List String × FillSegment) →
    Nat × List String × List (List String × FillSegment) × List Segment
  | [], used, current, chunks => (used, current, chunks, [])
  | .fill fs :: rest, used, current, chunks =>
      processSegments rest used [] (chunks ++ [(current, fs)])
  | .text t :: rest, used, current, chunks =>
      processSegments rest (used + (Segment.text t).width_graphemes)
        (current ++ [(Segment.text t).ansi_string]) chunks
  | .lineTerm :: rest, used, current, chunks =>
      (used + Segment.lineTerm.width_graphemes,
        current ++ [Segment.lineTerm.ansi_string], chunks, rest)

/-- `ansi_line` (`module.rs` lines 179–220): compose one line's worth of
segments, resolving fills against the optional target width; returns the
finished styled strings and the unconsumed segments. -/
def ansi_line (segments : List Segment) (term_width : Option Nat) :
    List String × List Segment :=
  let r := processSegments segments 0 [] []
  let used := r.1
  let current := r.2.1
  let chunks := r.2.2.1
  let rest := r.2.2.2
  if chunks.isEmpty then
    (current, rest)
  else
    let fill_size :=
      (term_width.bind fun tw => if tw > used then some (tw - used) else none).map
        fun remaining => remaining / chunks.length
    ((chunks.map fun p => p.1 ++ [p.2.ansi_string fill_size]).flatten ++ current,
      rest)

/-- The unconsumed suffix never grows. -/
theorem processSegments_rest_length_le (segs : List Segment) :
    ∀ used current chunks,
      (processSegments segs used current chunks).2.2.2.length ≤ segs.length := by
  induction segs with
  | nil => intro used current chunks; simp [processSegments]
  | cons a rest ih =>
      intro used current chunks
      cases a with
      | fill fs =>
          simp only [processSegments]
          exact le_trans (ih _ _ _) (Nat.le_succ _)
      | text t =>
          simp only [processSegments]
          exact le_trans (ih _ _ _) (Nat.le_succ _)
      | lineTerm => simp [processSegments]

/-- On a non-empty input, the loop consumes at least one segment. -/
theorem processSegments_rest_length_lt (a : Segment) (segs : List Segment)
    (used : Nat) (current : List String)
    (chunks : List (List String × FillSegment)) :
    (processSegments (a :: segs) used current chunks).2.2.2.length <
      (a :: segs).length := by
  cases a with
  | fill fs =>
      simp only [processSegments, List.length_cons]
      exact Nat.lt_succ_of_le (processSegments_rest_length_le _ _ _ _)
  | text t =>
      simp only [processSegments, List.length_cons]
      exact Nat.lt_succ_of_le (processSegments_rest_length_le _ _ _ _)
  | lineTerm => simp [processSegments]

/-- One `ansi_line` invocation on a non-empty input consumes at least one
segment. -/
theorem ansi_line_rest_length_lt (a : Segment) (segs : List Segment)
    (w : Option Nat) :
    (ansi_line (a :: segs) w).2.length < (a :: segs).length := by
  unfold ansi_line
  by_cases h : (processSegments (a :: segs) 0 [] []).2.2.1.isEmpty <;>
    simp only [h, if_true, if_false, Bool.false_eq_true, if_neg, if_pos] <;>
    exact processSegments_rest_length_lt a segs 0 [] []

/-!
The `Module` type (`module.rs` lines 80–138).  The configuration reference is
opaque pass-through data and the duration is unread metadata; neither affects
any queried behaviour, so they are carried as-is with trivial types omitted
where Rust types are external (`toml::Value`, `Duration` become opaque
markers).
-/

/-- A module: a collection of segments plus identifying metadata
(`module.rs` lines 80–95).  `config` and `duration` are opaque externals,
embedded as an optional unit and a natural number of nanoseconds. -/
structure Module where
  config : Option Unit := none
  name : String
  description : String
  segments : List Segment
  duration : Nat := 0

/-- `Module::new` (`module.rs` lines 99–107): creates a module with no
segments. -/
def Module.new (name desc : String) (config : Option Unit) : Module :=
  { config := config, name := name, description := desc,
    segments := [], duration := 0 }

/-- `Module::set_segments` (`module.rs` lines 110–112). -/
def Module.set_segments (m : Module) (segments : List Segment) : Module :=
  { m with segments := segments }

/-- `Module::is_empty` (`module.rs` lines 125–130): true when every segment's
value is the empty string; no trimming is applied. -/
def Module.is_empty (m : Module) : Bool :=
  m.segments.all fun segment => segment.value.isEmpty

/-- `Module::get_segments` (`module.rs` lines 133–138): the values of the
module's segments. -/
def Module.get_segments (m : Module) : List String :=
  m.segments.map fun segment => segment.value

/-- Modelled from the spec: the fixed shell enumeration (from `context.rs`,
not among the given sources), including a default/unknown value;
`module.rs` distinguishes only `Bash`, `Zsh` and `Tcsh`. -/
inductive Shell where
  | bash | fish | ion | elvish | tcsh | nu | xonsh | powershell | zsh | unknown
deriving DecidableEq, Repr

/-- Modelled from the spec: the shell-specific escape-begin marker inserted
by the escape wrapper (from `utils.rs`, not among the given sources). -/
def shellEscBegin : Shell → String
  | .bash => "\\["
  | .zsh => "%\x7b"
  | .tcsh => "%\x7b"
  | _ => ""

/-- Modelled from the spec: the shell-specific escape-end marker. -/
def shellEscEnd : Shell → String
  | .bash => "\\]"
  | .zsh => "%\x7d"
  | .tcsh => "%\x7d"
  | _ => ""

/-- Modelled from the spec: one character step of the escape wrapper — a
marker is opened at an escape byte and closed after the terminating `m`,
leaving every visible character untouched. -/
def wrapSeqStep (shell : Shell) (acc : String × Bool) (c : Char) :
    String × Bool :=
  if c = '\x1b' ∧ acc.2 = false then
    (acc.1 ++ shellEscBegin shell ++ String.singleton c, true)
  else if c = 'm' ∧ acc.2 = true then
    (acc.1 ++ String.singleton c ++ shellEscEnd shell, false)
  else
    (acc.1 ++ String.singleton c, acc.2)

/-- Modelled from the spec: `wrap_colorseq_for_shell` (from `utils.rs`) —
rewrites a finished styled string by inserting shell-specific markers
around embedded terminal escape codes. -/
def wrap_colorseq_for_shell (s : String) (shell : Shell) : String :=
  (s.toList.foldl (wrapSeqStep shell) ("", false)).1

/-- `ansi_strings_modified` (`module.rs` lines 169–177): wrap every finished
styled string for the given shell. -/
def ansi_strings_modified (strs : List String) (shell : Shell) :
    List String :=
  strs.map fun s => wrap_colorseq_for_shell s shell

/-- The `while iter.peek().is_some()` loop of `ansi_strings_for_shell`
(`module.rs` lines 147–151): repeatedly invoke `ansi_line` while unconsumed
segments remain, concatenating the produced styled strings. -/
def composeAll (segs : List Segment) (width : Option Nat) : List String :=
  match segs with
  | [] => []
  | a :: rest0 =>
      (ansi_line (a :: rest0) width).1 ++
        composeAll (ansi_line (a :: rest0) width).2 width
termination_by segs.length
decreasing_by
  exact ansi_line_rest_length_lt a rest0 width

/-- The number of `ansi_line` invocations performed by the rendering loop. -/
def numInvocations (segs : List Segment) (width : Option Nat) : Nat :=
  match segs with
  | [] => 0
  | a :: rest0 => numInvocations (ansi_line (a :: rest0) width).2 width + 1
termination_by segs.length
decreasing_by
  exact ansi_line_rest_length_lt a rest0 width

/-- `Module::ansi_strings_for_shell` (`module.rs` lines 146–159): compose all
lines, then wrap for the shells whose line editors miscount escape
sequences; every other shell passes through unmodified. -/
def Module.ansi_strings_for_shell (m : Module) (shell : Shell)
    (width : Option Nat) : List String :=
  let strs := composeAll m.segments width
  match shell with
  | .bash => ansi_strings_modified strs .bash
  | .zsh => ansi_strings_modified strs .zsh
  | .tcsh => ansi_strings_modified strs .tcsh
  | _ => strs

/-- `Module::ansi_strings` (`module.rs` lines 142–144): the default render
uses the unknown shell and no width hint. -/
def Module.ansi_strings (m : Module) : List String :=
  m.ansi_strings_for_shell .unknown none

/-!
Structural analysis of one composed line.  `chunkify` mirrors the chunk
accumulation of the `ansi_line` loop on a line without terminator, and
`resolveSeg` is the per-segment resolution the composed output realises.
-/

/-- The number of fill segments in a sequence. -/
def countFills (segs : List Segment) : Nat :=
  segs.countP Segment.isFill

/-- The total styled display width of a sequence (fills and line terminators
contribute zero). -/
def usedWidth (segs : List Segment) : Nat :=
  (segs.map Segment.width_graphemes).sum

/-- A sequence forming exactly one logical line: no line terminator. -/
def noLineTerm (segs : List Segment) : Prop :=
  ∀ s ∈ segs, s.isLineTerm = false

instance (segs : List Segment) : Decidable (noLineTerm segs) :=
  inferInstanceAs (Decidable (∀ s ∈ segs, s.isLineTerm = false))

/-- The chunk decomposition built by the `ansi_line` loop: the runs of
rendered segments preceding each fill, and the trailing run. -/
def chunkify (cur : List String) :
    List Segment → List (List String × FillSegment) × List String
  | [] => ([], cur)
  | .fill fs :: rest =>
      ((cur, fs) :: (chunkify [] rest).1, (chunkify [] rest).2)
  | s :: rest => chunkify (cur ++ [s.ansi_string]) rest

/-- Per-segment resolution against a resolved fill width: fills render their
fill string repeated, all other segments render verbatim. -/
def resolveSeg (fsz : Option Nat) : Segment → String
  | .fill fs => fs.ansi_string fsz
  | s => s.ansi_string

/-- The fill width `ansi_line` computes for one line: when a target width is
supplied and exceeds the used width, the remaining space divided by the
number of fills; otherwise nothing. -/
def lineFillSize (segs : List Segment) (w : Option Nat) : Option Nat :=
  (w.bind fun tw =>
      if tw > usedWidth segs then some (tw - usedWidth segs) else none).map
    fun remaining => remaining / countFills segs

/-- On a line without terminator the loop consumes everything, accumulates
the total used width, and builds exactly the `chunkify` decomposition. -/
theorem processSegments_noLT (segs : List Segment) :
    noLineTerm segs → ∀ used cur chunks,
      processSegments segs used cur chunks =
        (used + usedWidth segs, (chunkify cur segs).2,
          chunks ++ (chunkify cur segs).1, []) := by
  induction segs with
  | nil =>
      intro _ used cur chunks
      simp [processSegments, usedWidth, chunkify]
  | cons a rest ih =>
      intro h used cur chunks
      have h' : noLineTerm rest := fun s hs => h s (List.mem_cons_of_mem _ hs)
      cases a with
      | fill fs =>
          simp only [processSegments, chunkify]
          rw [ih h']
          simp [usedWidth, Segment.width_graphemes]
      | text t =>
          simp only [processSegments, chunkify]
          rw [ih h']
          simp [usedWidth, Segment.width_graphemes, Nat.add_assoc]
      | lineTerm =>
          exact absurd (h _ (List.mem_cons_self _ _)) (by
            simp [Segment.isLineTerm])

/-- The chunk decomposition contains one chunk per fill segment. -/
theorem chunkify_length (segs : List Segment) :
    ∀ cur, (chunkify cur segs).1.length = countFills segs := by
  induction segs with
  | nil => intro cur; simp [chunkify, countFills]
  | cons a rest ih =>
      intro cur
      cases a with
      | fill fs =>
          simp [chunkify, countFills, Segment.isFill, List.countP_cons]
          simpa [countFills] using ih []
      | text t =>
          simp [chunkify, countFills, Segment.isFill, List.countP_cons]
          simpa [countFills] using ih (cur ++ [(Segment.text t).ansi_string])
      | lineTerm =>
          simp [chunkify, countFills, Segment.isFill, List.countP_cons]
          simpa [countFills] using ih (cur ++ [Segment.lineTerm.ansi_string])

/-- Flattening the chunk decomposition with any fill width realises the
per-segment resolution, in segment order. -/
theorem chunkify_flatten (segs : List Segment) (fsz : Option Nat) :
    ∀ cur,
      ((chunkify cur segs).1.map fun p =>
          p.1 ++ [p.2.ansi_string fsz]).flatten ++ (chunkify cur segs).2 =
        cur ++ segs.map (resolveSeg fsz) := by
  induction segs with
  | nil => intro cur; simp [chunkify]
  | cons a rest ih =>
      intro cur
      cases a with
      | fill fs =>
          simp only [chunkify, List.map_cons, List.flatten_cons,
            List.map_cons, resolveSeg]
          rw [List.append_assoc, ih []]
          simp
      | text t =>
          simp only [chunkify, List.map_cons, resolveSeg]
          rw [ih (cur ++ [(Segment.text t).ansi_string])]
          simp
      | lineTerm =>
          simp only [chunkify, List.map_cons, resolveSeg]
          rw [ih (cur ++ [Segment.lineTerm.ansi_string])]
          simp

/-- Main structural result for one line: on a terminator-free sequence,
`ansi_line` consumes everything and produces exactly the per-segment
resolution at the fill width it computes. -/
theorem ansi_line_noLT (segs : List Segment) (h : noLineTerm segs)
    (w : Option Nat) :
    ansi_line segs w = (segs.map (resolveSeg (lineFillSize segs w)), []) := by
  simp only [ansi_line]
  rw [processSegments_noLT segs h 0 [] []]
  by_cases hc : countFills segs = 0
  · have h1 : (chunkify ([] : List String) segs).1 = [] := by
      rw [← List.length_eq_zero]
      rw [chunkify_length segs []]
      exact hc
    have hf := chunkify_flatten segs (lineFillSize segs w) []
    rw [h1] at hf
    simp only [List.map_nil, List.flatten_nil, List.nil_append] at hf
    simp [h1, hf]
  · have h1 : ¬(chunkify ([] : List String) segs).1.isEmpty := by
      rw [List.isEmpty_iff, ← List.length_eq_zero, chunkify_length segs []]
      exact hc
    have hf := chunkify_flatten segs (lineFillSize segs w) []
    simp only [List.nil_append] at hf
    simp only [Nat.zero_add, List.nil_append, h1, Bool.false_eq_true,
      if_false]
    rw [chunkify_length segs []]
    simp only [lineFillSize] at hf ⊢
    rw [hf]

/-!
Multi-line behaviour: each `ansi_line` invocation consumes exactly the first
logical line (up to and including the first line terminator), and the
rendering loop re-enters until no segments remain.
-/

/-- The segments up to and including the first line terminator (or all of
them when there is none). -/
def takeFirstLine : List Segment → List Segment
  | [] => []
  | .lineTerm :: _ => [.lineTerm]
  | s :: rest => s :: takeFirstLine rest

/-- The segments strictly after the first line terminator (empty when there
is none). -/
def removeFirstLine : List Segment → List Segment
  | [] => []
  | .lineTerm :: rest => rest
  | _ :: rest => removeFirstLine rest

/-- The number of line terminators in a sequence. -/
def countLineTerms (segs : List Segment) : Nat :=
  segs.countP Segment.isLineTerm

/-- The first line and the rest partition the sequence. -/
theorem takeFirstLine_append_removeFirstLine (segs : List Segment) :
    takeFirstLine segs ++ removeFirstLine segs = segs := by
  induction segs with
  | nil => rfl
  | cons a rest ih =>
      cases a with
      | fill fs => simpa [takeFirstLine, removeFirstLine] using ih
      | text t => simpa [takeFirstLine, removeFirstLine] using ih
      | lineTerm => simp [takeFirstLine, removeFirstLine]

/-- The loop leaves exactly the segments after the first line terminator
unconsumed. -/
theorem processSegments_rest (segs : List Segment) :
    ∀ used cur chunks,
      (processSegments segs used cur chunks).2.2.2 = removeFirstLine segs := by
  induction segs with
  | nil => intro used cur chunks; simp [processSegments, removeFirstLine]
  | cons a rest ih =>
      intro used cur chunks
      cases a with
      | fill fs => simpa [processSegments, removeFirstLine] using ih _ _ _
      | text t => simpa [processSegments, removeFirstLine] using ih _ _ _
      | lineTerm => simp [processSegments, removeFirstLine]

/-- `ansi_line` consumes exactly the first logical line. -/
theorem ansi_line_rest (segs : List Segment) (w : Option Nat) :
    (ansi_line segs w).2 = removeFirstLine segs := by
  simp only [ansi_line]
  by_cases h : (processSegments segs 0 [] []).2.2.1.isEmpty <;>
    simp [h, processSegments_rest]

/-- Dropping the first line never lengthens the sequence. -/
theorem removeFirstLine_length_le (segs : List Segment) :
    (removeFirstLine segs).length ≤ segs.length := by
  induction segs with
  | nil => simp [removeFirstLine]
  | cons a rest ih =>
      cases a with
      | fill fs =>
          simp only [removeFirstLine, List.length_cons]
          exact le_trans ih (Nat.le_succ _)
      | text t =>
          simp only [removeFirstLine, List.length_cons]
          exact le_trans ih (Nat.le_succ _)
      | lineTerm => simp [removeFirstLine]

/-- Dropping the first line of a non-empty sequence shortens it. -/
theorem removeFirstLine_length_lt (a : Segment) (rest : List Segment) :
    (removeFirstLine (a :: rest)).length < (a :: rest).length := by
  cases a with
  | fill fs =>
      simp only [removeFirstLine, List.length_cons]
      exact Nat.lt_succ_of_le (removeFirstLine_length_le rest)
  | text t =>
      simp only [removeFirstLine, List.length_cons]
      exact Nat.lt_succ_of_le (removeFirstLine_length_le rest)
  | lineTerm => simp [removeFirstLine]

/-- Every segment of the rest belongs to the original sequence. -/
theorem mem_of_mem_removeFirstLine {s : Segment} (segs : List Segment)
    (h : s ∈ removeFirstLine segs) : s ∈ segs := by
  induction segs with
  | nil => simp [removeFirstLine] at h
  | cons a rest ih =>
      cases a with
      | fill fs =>
          exact List.mem_cons_of_mem _ (ih (by simpa [removeFirstLine] using h))
      | text t =>
          exact List.mem_cons_of_mem _ (ih (by simpa [removeFirstLine] using h))
      | lineTerm =>
          exact List.mem_cons_of_mem _ (by simpa [removeFirstLine] using h)

/-- When a terminator is present, dropping the first line removes exactly one
terminator. -/
theorem countLineTerms_removeFirstLine (segs : List Segment)
    (h : Segment.lineTerm ∈ segs) :
    countLineTerms (removeFirstLine segs) + 1 = countLineTerms segs := by
  induction segs with
  | nil => simp at h
  | cons a rest ih =>
      cases a with
      | fill fs =>
          have h' : Segment.lineTerm ∈ rest := by simpa using h
          simpa [removeFirstLine, countLineTerms, List.countP_cons,
            Segment.isLineTerm] using ih h'
      | text t =>
          have h' : Segment.lineTerm ∈ rest := by simpa using h
          simpa [removeFirstLine, countLineTerms, List.countP_cons,
            Segment.isLineTerm] using ih h'
      | lineTerm =>
          simp [removeFirstLine, countLineTerms, List.countP_cons,
            Segment.isLineTerm]

/-- Without a terminator the whole sequence is one line. -/
theorem removeFirstLine_eq_nil (segs : List Segment)
    (h : Segment.lineTerm ∉ segs) : removeFirstLine segs = [] := by
  induction segs with
  | nil => rfl
  | cons a rest ih =>
      cases a with
      | fill fs => exact ih fun hm => h (List.mem_cons_of_mem _ hm)
      | text t => exact ih fun hm => h (List.mem_cons_of_mem _ hm)
      | lineTerm => exact absurd (List.mem_cons_self _ _) h

/-- Without a terminator the terminator count is zero. -/
theorem countLineTerms_eq_zero (segs : List Segment)
    (h : Segment.lineTerm ∉ segs) : countLineTerms segs = 0 := by
  induction segs with
  | nil => rfl
  | cons a rest ih =>
      have h' : Segment.lineTerm ∉ rest := fun hm => h (List.mem_cons_of_mem _ hm)
      cases a with
      | fill fs =>
          simpa [countLineTerms, List.countP_cons, Segment.isLineTerm]
            using ih h'
      | text t =>
          simpa [countLineTerms, List.countP_cons, Segment.isLineTerm]
            using ih h'
      | lineTerm => exact absurd (List.mem_cons_self _ _) h

/-- The loop performs either `k` or `k + 1` invocations, where `k` is the
number of line terminators (fuel-indexed strong induction). -/
theorem numInvocations_spec (n : Nat) :
    ∀ segs w, List.length segs ≤ n →
      numInvocations segs w = countLineTerms segs ∨
      numInvocations segs w = countLineTerms segs + 1 := by
  induction n with
  | zero =>
      intro segs w hle
      have hnil : segs = [] := List.length_eq_zero.mp (Nat.le_zero.mp hle)
      subst hnil
      left
      simp [numInvocations, countLineTerms]
  | succ n ih =>
      intro segs w hle
      match segs with
      | [] =>
          left
          simp [numInvocations, countLineTerms]
      | a :: rest =>
          rw [numInvocations, ansi_line_rest]
          have hlen : (removeFirstLine (a :: rest)).length ≤ n :=
            Nat.lt_succ_iff.mp
              (lt_of_lt_of_le (removeFirstLine_length_lt a rest) hle)
          by_cases hm : Segment.lineTerm ∈ a :: rest
          · have hc := countLineTerms_removeFirstLine (a :: rest) hm
            rcases ih (removeFirstLine (a :: rest)) w hlen with h1 | h1
            · left
              rw [h1]
              exact hc
            · right
              rw [h1, ← hc]
          · right
            rw [removeFirstLine_eq_nil _ hm, countLineTerms_eq_zero _ hm]
            simp [numInvocations]

/-- On a fill-free sequence the loop renders the first line verbatim and
builds no chunks. -/
theorem processSegments_noFill (segs : List Segment)
    (h : ∀ s ∈ segs, s.isFill = false) :
    ∀ used cur chunks,
      processSegments segs used cur chunks =
        (used + usedWidth (takeFirstLine segs),
          cur ++ (takeFirstLine segs).map Segment.ansi_string, chunks,
          removeFirstLine segs) := by
  induction segs with
  | nil =>
      intro used cur chunks
      simp [processSegments, takeFirstLine, removeFirstLine, usedWidth]
  | cons a rest ih =>
      intro used cur chunks
      cases a with
      | fill fs =>
          exact absurd (h _ (List.mem_cons_self _ _)) (by simp [Segment.isFill])
      | text t =>
          have h' : ∀ s ∈ rest, s.isFill = false :=
            fun s hs => h s (List.mem_cons_of_mem _ hs)
          simp only [processSegments]
          rw [ih h']
          simp [takeFirstLine, removeFirstLine, usedWidth, Nat.add_assoc]
      | lineTerm =>
          simp [processSegments, takeFirstLine, removeFirstLine, usedWidth]

/-- On a fill-free sequence `ansi_line` renders the first line verbatim, for
every width. -/
theorem ansi_line_noFill (segs : List Segment)
    (h : ∀ s ∈ segs, s.isFill = false) (w : Option Nat) :
    ansi_line segs w =
      ((takeFirstLine segs).map Segment.ansi_string, removeFirstLine segs) := by
  simp only [ansi_line]
  rw [processSegments_noFill segs h 0 [] []]
  simp

/-- On a fill-free sequence the whole rendering loop is the verbatim
rendering of every segment in order, independent of the width
(fuel-indexed strong induction). -/
theorem composeAll_noFill_aux (n : Nat) :
    ∀ segs, List.length segs ≤ n → (∀ s ∈ segs, s.isFill = false) →
      ∀ w, composeAll segs w = segs.map Segment.ansi_string := by
  induction n with
  | zero =>
      intro segs hle _ w
      have hnil : segs = [] := List.length_eq_zero.mp (Nat.le_zero.mp hle)
      subst hnil
      simp [composeAll]
  | succ n ih =>
      intro segs hle h w
      match segs with
      | [] => simp [composeAll]
      | a :: rest =>
          rw [composeAll, ansi_line_noFill (a :: rest) h w]
          have hlen : (removeFirstLine (a :: rest)).length ≤ n :=
            Nat.lt_succ_iff.mp
              (lt_of_lt_of_le (removeFirstLine_length_lt a rest) hle)
          have h' : ∀ s ∈ removeFirstLine (a :: rest), s.isFill = false :=
            fun s hs => h s (mem_of_mem_removeFirstLine _ hs)
          rw [ih (removeFirstLine (a :: rest)) hlen h' w]
          rw [← List.map_append, takeFirstLine_append_removeFirstLine]

/-!
The fixed module-name catalogue (`module.rs` lines 10–76) and a kernel-
evaluable lexicographic order used to state its invariant.
-/

/-- `ALL_MODULES` (`module.rs` lines 10–76): the fixed catalogue of module
names; `battery` is included (it is compiled in behind a feature gate but is
part of the listed catalogue). -/
def ALL_MODULES : List String :=
  ["aws", "battery", "character", "cmake", "cmd_duration", "cobol", "conda",
   "crystal", "dart", "deno", "directory", "docker_context", "dotnet",
   "elixir", "elm", "env_var", "erlang", "fill", "gcloud", "git_branch",
   "git_commit", "git_metrics", "git_state", "git_status", "golang", "helm",
   "hg_branch", "hostname", "java", "jobs", "julia", "kotlin", "kubernetes",
   "line_break", "lua", "memory_usage", "nim", "nix_shell", "nodejs",
   "ocaml", "openstack", "package", "perl", "php", "pulumi", "purescript",
   "python", "red", "rlang", "ruby", "rust", "scala", "shell", "shlvl",
   "singularity", "status", "swift", "terraform", "time", "username",
   "vagrant", "vcsh", "vlang", "zig"]

/-- Strict lexicographic order on character lists, comparing code points. -/
def charListLt : List Char → List Char → Bool
  | [], [] => false
  | [], _ :: _ => true
  | _ :: _, [] => false
  | c :: a, d :: b =>
      if c.toNat < d.toNat then true
      else if d.toNat < c.toNat then false
      else charListLt a b

/-- Strict lexicographic order on strings, comparing code points. -/
def stringLt (a b : String) : Bool :=
  charListLt a.data b.data

/-- The lexicographic order is asymmetric. -/
theorem charListLt_asymm :
    ∀ a b, charListLt a b = true → charListLt b a = true → False := by
  intro a
  induction a with
  | nil => intro b h1 h2; cases b <;> simp [charListLt] at h1 h2
  | cons c a ih =>
      intro b h1 h2
      cases b with
      | nil => simp [charListLt] at h1
      | cons d b =>
          simp only [charListLt] at h1 h2
          by_cases hcd : c.toNat < d.toNat
          · have hdc : ¬ d.toNat < c.toNat := by omega
            simp [hcd, hdc] at h2
          · by_cases hdc : d.toNat < c.toNat
            · simp [hcd, hdc] at h1
            · simp [hcd, hdc] at h1 h2
              exact ih b h1 h2

/-!
Case analysis of the computed fill size and the total width carried by the
resolved output, for the distribution claims.
-/

/-- With enough room, the computed fill size is the remaining space divided
by the number of fills. -/
theorem lineFillSize_of_lt (segs : List Segment) (W : Nat)
    (h : usedWidth segs < W) :
    lineFillSize segs (some W) =
      some ((W - usedWidth segs) / countFills segs) := by
  simp [lineFillSize, h]

/-- Without enough room, the computed fill size is nothing. -/
theorem lineFillSize_of_ge (segs : List Segment) (W : Nat)
    (h : W ≤ usedWidth segs) :
    lineFillSize segs (some W) = none := by
  simp [lineFillSize, Nat.not_lt.mpr h]

/-- Without a target width, the computed fill size is nothing. -/
theorem lineFillSize_none (segs : List Segment) :
    lineFillSize segs none = none := rfl

/-- Repetition multiplies the length. -/
theorem repeatStr_length (s : String) :
    ∀ n, (repeatStr s n).length = n * s.length := by
  intro n
  induction n with
  | zero => simp [repeatStr]
  | succ n ih =>
      simp only [repeatStr, String.length_append, ih]
      ring

/-- A fill whose fill string is a single character. -/
def isUnitFill : Segment → Bool
  | .fill fs => fs.value.length == 1
  | _ => true

/-- Total width of a resolved one-line output with single-character fills:
the used width plus one resolved fill width per fill segment. -/
theorem resolveSeg_lengths (segs : List Segment) :
    noLineTerm segs → segs.all isUnitFill = true →
    ∀ k, ((segs.map (resolveSeg (some k))).map String.length).sum =
      usedWidth segs + countFills segs * k := by
  induction segs with
  | nil => intro _ _ k; simp [usedWidth, countFills]
  | cons a rest ih =>
      intro h h3 k
      have h' : noLineTerm rest := fun s hs => h s (List.mem_cons_of_mem a hs)
      rw [List.all_cons, Bool.and_eq_true] at h3
      cases a with
      | fill fs =>
          have hv : fs.value.length = 1 := by
            have := h3.1
            simp [isUnitFill] at this
            exact this
          simp only [List.map_cons, List.sum_cons, resolveSeg]
          rw [ih h' h3.2 k]
          simp only [FillSegment.ansi_string, repeatStr_length, hv,
            usedWidth, countFills, List.map_cons, List.sum_cons,
            List.countP_cons, Segment.isFill, Segment.width_graphemes,
            if_true]
          ring
      | text t =>
          simp only [List.map_cons, List.sum_cons, resolveSeg]
          rw [ih h' h3.2 k]
          simp only [Segment.ansi_string, Segment.value, usedWidth,
            countFills, List.map_cons, List.sum_cons, List.countP_cons,
            Segment.isFill, Segment.width_graphemes]
          simp
          ring
      | lineTerm =>
          exact absurd (h _ (List.mem_cons_self _ _)) (by
            simp [Segment.isLineTerm])

/-!
Claim theorems.
-/

/-- C1: on a one-line segment sequence (no line terminator) with at least
one fill, when a target width `W` is supplied and exceeds the used styled
width, every fill resolves to exactly `(W - used) / n` repetitions of its
fill string (`n` the number of fills, integer division); when `W` is
supplied but does not exceed the used width, and when no width is supplied,
every fill resolves to the empty string.  Rendering is a total function, so
no case errors. -/
theorem claim_C1_fill_distribution (segs : List Segment)
    (h : noLineTerm segs) (_h1 : 1 ≤ countFills segs) :
    (∀ W : Nat, usedWidth segs < W →
        (ansi_line segs (some W)).1 =
          segs.map
            (resolveSeg (some ((W - usedWidth segs) / countFills segs)))) ∧
    (∀ W : Nat, W ≤ usedWidth segs →
        (ansi_line segs (some W)).1 = segs.map (resolveSeg none)) ∧
    (ansi_line segs none).1 = segs.map (resolveSeg none) := by
  refine ⟨?_, ?_, ?_⟩
  · intro W hW
    rw [ansi_line_noLT segs h (some W), lineFillSize_of_lt segs W hW]
  · intro W hW
    rw [ansi_line_noLT segs h (some W), lineFillSize_of_ge segs W hW]
  · rw [ansi_line_noLT segs h none, lineFillSize_none]

/-- C1 witness: `[Styled "git", Fill "-", Styled "branch"]` uses 9 columns;
at width 20 the fill resolves to 11 dashes, at width 5 and with no width it
resolves to nothing. -/
theorem claim_C1_fill_distribution_witness :
    (ansi_line
        [Segment.text ⟨"git"⟩, Segment.fill ⟨"-"⟩, Segment.text ⟨"branch"⟩]
        (some 20)).1 = ["git", "-----------", "branch"] ∧
    (ansi_line
        [Segment.text ⟨"git"⟩, Segment.fill ⟨"-"⟩, Segment.text ⟨"branch"⟩]
        (some 5)).1 = ["git", "", "branch"] ∧
    (ansi_line
        [Segment.text ⟨"git"⟩, Segment.fill ⟨"-"⟩, Segment.text ⟨"branch"⟩]
        none).1 = ["git", "", "branch"] := by
  obtain ⟨hA, hB, hC⟩ := claim_C1_fill_distribution
    [Segment.text ⟨"git"⟩, Segment.fill ⟨"-"⟩, Segment.text ⟨"branch"⟩]
    (by decide) (by decide)
  refine ⟨?_, ?_, ?_⟩
  · rw [hA 20 (by decide)]; decide
  · rw [hB 5 (by decide)]; decide
  · rw [hC]; decide

/-- C2: on a one-line sequence whose fills are single characters, with
`n ≥ 1` fills and enough room, the total width of the composed output is the
used width plus exactly `n * ((W - used) / n)` fill characters; the
remainder `(W - used) % n` is dropped, not assigned to any fill. -/
theorem claim_C2_remainder_dropped (segs : List Segment) (W : Nat)
    (h : noLineTerm segs) (_h1 : 1 ≤ countFills segs)
    (h2 : usedWidth segs < W) (h3 : segs.all isUnitFill = true) :
    ((ansi_line segs (some W)).1.map String.length).sum =
        usedWidth segs +
          countFills segs * ((W - usedWidth segs) / countFills segs) ∧
    countFills segs * ((W - usedWidth segs) / countFills segs) =
      (W - usedWidth segs) - (W - usedWidth segs) % countFills segs := by
  constructor
  · rw [ansi_line_noLT segs h (some W), lineFillSize_of_lt segs W h2]
    simp only []
    exact resolveSeg_lengths segs h h3 _
  · have hdm := Nat.div_add_mod (W - usedWidth segs) (countFills segs)
    omega

/-- C2 witness: three fills with `W - used = 10` — each fill gets
`10 / 3 = 3` characters, the total fill output is 9 characters, and the
total output width is `3 + 9 = 12`, not `13`. -/
theorem claim_C2_remainder_dropped_witness :
    ((ansi_line
        [Segment.text ⟨"ab"⟩, Segment.fill ⟨"."⟩, Segment.text ⟨"c"⟩,
          Segment.fill ⟨"."⟩, Segment.fill ⟨"."⟩] (some 13)).1.map
      String.length).sum = 3 + 3 * 3 ∧
    (ansi_line
        [Segment.text ⟨"ab"⟩, Segment.fill ⟨"."⟩, Segment.text ⟨"c"⟩,
          Segment.fill ⟨"."⟩, Segment.fill ⟨"."⟩] (some 13)).1 =
      ["ab", "...", "c", "...", "..."] := by
  obtain ⟨hA, _⟩ := claim_C2_remainder_dropped
    [Segment.text ⟨"ab"⟩, Segment.fill ⟨"."⟩, Segment.text ⟨"c"⟩,
      Segment.fill ⟨"."⟩, Segment.fill ⟨"."⟩] 13
    (by decide) (by decide) (by decide) (by decide)
  constructor
  · rw [hA]; decide
  · decide

/-- C3: `is_empty` is true exactly when every segment's resolved text value
is the empty string, with no whitespace trimming; a module whose only
segment is a single-space styled segment is not empty. -/
theorem claim_C3_is_empty_iff (m : Module) :
    (m.is_empty = true ↔ ∀ s ∈ m.segments, s.value = "") ∧
    (m.segments = [Segment.text ⟨" "⟩] → m.is_empty = false) := by
  constructor
  · simp [Module.is_empty, List.all_eq_true, String.isEmpty_iff]
  · intro hseg
    unfold Module.is_empty
    rw [hseg]
    decide

/-- C3 witness: a module holding exactly one space-valued styled segment is
not empty. -/
theorem claim_C3_is_empty_iff_witness :
    ({ name := "unit_test", description := "a unit test",
        segments := [Segment.text ⟨" "⟩] } : Module).is_empty = false :=
  (claim_C3_is_empty_iff _).2 rfl

/-- C4: a module whose segment list is exactly one line terminator is not
empty (a bare line break counts as content), even though the line
terminator's raw text is the empty string. -/
theorem claim_C4_lineterm_not_empty (m : Module)
    (h : m.segments = [Segment.lineTerm]) :
    m.is_empty = false ∧ Segment.lineTerm.raw_text = "" := by
  refine ⟨?_, rfl⟩
  unfold Module.is_empty
  rw [h]
  decide

/-- C4 witness: a concrete module holding exactly one line terminator. -/
theorem claim_C4_lineterm_not_empty_witness :
    ({ name := "unit_test", description := "a unit test",
        segments := [Segment.lineTerm] } : Module).is_empty = false ∧
      Segment.lineTerm.raw_text = "" :=
  claim_C4_lineterm_not_empty _ rfl

/-- C5: the composed line preserves segment order exactly — on a one-line
sequence the output is the per-segment resolution of the original sequence
in order (styled runs interleaved with resolved fills); and on a sequence
with no fill segments the rendering loop returns the rendered segments in
their original order, identically for every choice of target width. -/
theorem claim_C5_order_preserved (segs : List Segment) (w : Option Nat) :
    (noLineTerm segs →
        (ansi_line segs w).1 =
          segs.map (resolveSeg (lineFillSize segs w))) ∧
    ((∀ s ∈ segs, s.isFill = false) →
        composeAll segs w = segs.map Segment.ansi_string) := by
  constructor
  · intro h
    rw [ansi_line_noLT segs h w]
  · intro h
    exact composeAll_noFill_aux segs.length segs le_rfl h w

/-- C5 witness: order preservation on a concrete fill line and on a concrete
fill-free two-line sequence. -/
theorem claim_C5_order_preserved_witness :
    (ansi_line
        [Segment.text ⟨"git"⟩, Segment.fill ⟨"-"⟩, Segment.text ⟨"branch"⟩]
        (some 20)).1 =
      [Segment.text ⟨"git"⟩, Segment.fill ⟨"-"⟩,
        Segment.text ⟨"branch"⟩].map
        (resolveSeg (lineFillSize
          [Segment.text ⟨"git"⟩, Segment.fill ⟨"-"⟩,
            Segment.text ⟨"branch"⟩] (some 20))) ∧
    composeAll [Segment.text ⟨"a"⟩, Segment.lineTerm, Segment.text ⟨"b"⟩]
        (some 7) =
      [Segment.text ⟨"a"⟩, Segment.lineTerm,
        Segment.text ⟨"b"⟩].map Segment.ansi_string :=
  ⟨(claim_C5_order_preserved
      [Segment.text ⟨"git"⟩, Segment.fill ⟨"-"⟩, Segment.text ⟨"branch"⟩]
      (some 20)).1 (by decide),
    (claim_C5_order_preserved
      [Segment.text ⟨"a"⟩, Segment.lineTerm, Segment.text ⟨"b"⟩]
      (some 7)).2 (by decide)⟩

/-- C6: one composer invocation consumes exactly the segments up to and
including the first line terminator (the first line and the rest partition
the sequence), and the rendering loop re-enters while segments remain, so a
sequence with `k` line terminators is processed in `k` or `k + 1`
invocations covering every segment exactly once. -/
theorem claim_C6_line_consumption (segs : List Segment) (w : Option Nat) :
    (ansi_line segs w).2 = removeFirstLine segs ∧
    takeFirstLine segs ++ removeFirstLine segs = segs ∧
    (numInvocations segs w = countLineTerms segs ∨
      numInvocations segs w = countLineTerms segs + 1) :=
  ⟨ansi_line_rest segs w, takeFirstLine_append_removeFirstLine segs,
    numInvocations_spec segs.length segs w le_rfl⟩

/-- C7: for every module and width, rendering for any shell other than the
escape-miscounting ones (bash, zsh, tcsh) — in particular the
generic/unknown shell — returns the composed styled strings unmodified. -/
theorem claim_C7_generic_shell_identity (m : Module) (shell : Shell)
    (w : Option Nat) (h1 : shell ≠ .bash) (h2 : shell ≠ .zsh)
    (h3 : shell ≠ .tcsh) :
    m.ansi_strings_for_shell shell w = composeAll m.segments w := by
  cases shell
  case bash => exact absurd rfl h1
  case zsh => exact absurd rfl h2
  case tcsh => exact absurd rfl h3
  all_goals rfl

/-- C7 witness: the unknown shell passes a concrete module's composed
output through unchanged. -/
theorem claim_C7_generic_shell_identity_witness :
    ({ name := "m", description := "d",
        segments := [Segment.text ⟨"hi"⟩] } : Module).ansi_strings_for_shell
        .unknown none =
      composeAll [Segment.text ⟨"hi"⟩] none :=
  claim_C7_generic_shell_identity
    { name := "m", description := "d", segments := [Segment.text ⟨"hi"⟩] }
    .unknown none (by decide) (by decide) (by decide)

/-- C9: the fixed module-name catalogue is strictly sorted in ascending
lexicographic order, has no duplicates, and any sorted permutation of it is
itself — sorting leaves it unchanged. -/
theorem claim_C9_all_modules_sorted :
    List.Pairwise (fun a b => stringLt a b = true) ALL_MODULES ∧
    ALL_MODULES.Nodup ∧
    ∀ l : List String, l.Perm ALL_MODULES →
      List.Pairwise (fun a b => stringLt a b = true) l →
      l = ALL_MODULES := by
  have hp : List.Pairwise (fun a b => stringLt a b = true) ALL_MODULES := by
    decide
  refine ⟨hp, by decide, ?_⟩
  intro l hperm hsort
  haveI : IsAntisymm String (fun a b => stringLt a b = true) :=
    ⟨fun a b hab hba => (charListLt_asymm a.data b.data hab hba).elim⟩
  exact List.eq_of_perm_of_sorted hperm hsort hp

/-- C9 witness: the catalogue itself is the sorted permutation of the
catalogue. -/
theorem claim_C9_all_modules_sorted_witness :
    ALL_MODULES = ALL_MODULES :=
  claim_C9_all_modules_sorted.2.2 ALL_MODULES (List.Perm.refl _) (by decide)

/-!
The kubernetes module boundary (`src/modules/kubernetes.rs`).  File access,
yaml parsing, environment lookup, path splitting, the regex engine and the
string formatter are external collaborators; each is an oracle field of the
context record, with the module's own control flow embedded from the
source.
-/

/-- Modelled from the spec: the yaml values read from kube config files (the
yaml library is external); only the shapes the module consumes.  `badValue`
is the out-of-band value yaml indexing yields for missing keys. -/
inductive Yaml where
  | str : String → Yaml
  | arr : List Yaml → Yaml
  | map : List (String × Yaml) → Yaml
  | badValue : Yaml

/-- Yaml hash indexing: the value at a string key, or `badValue`. -/
def Yaml.index (y : Yaml) (key : String) : Yaml :=
  match y with
  | .map kvs =>
      match kvs.lookup key with
      | some v => v
      | none => .badValue
  | _ => .badValue

/-- `as_str`: the string content of a yaml scalar. -/
def Yaml.asStr : Yaml → Option String
  | .str s => some s
  | _ => none

/-- `as_vec`: the elements of a yaml array. -/
def Yaml.asVec : Yaml → Option (List Yaml)
  | .arr l => some l
  | _ => none

/-- Oracles for the external effects the kube-context readers perform:
`utils::read_file(..).ok()` and `YamlLoader::load_from_str(..).ok()`. -/
structure KubeIO where
  readFile : String → Option String
  loadYaml : String → Option (List Yaml)

/-- Modelled from the spec: the kubernetes config section (from
`configs/kubernetes.rs`, not among the given sources): symbol, format,
style, disabled flag, and the context-alias map embedded as a key-value
list with distinct keys. -/
structure KubernetesConfig where
  symbol : String
  format : String
  style : String
  disabled : Bool
  context_aliases : List (String × String)

/-- `get_kube_context` (`kubernetes.rs` lines 13–28): read and parse one
config file and extract its non-empty `current-context`, or nothing. -/
def get_kube_context (io : KubeIO) (filename : String) : Option String :=
  (io.readFile filename).bind fun contents =>
    (io.loadYaml contents).bind fun yamlDocs =>
      if yamlDocs.isEmpty then none
      else
        ((yamlDocs.headD .badValue).index "current-context").asStr.bind
          fun currentCtx =>
            if currentCtx.isEmpty then none else some currentCtx

/-- `get_kube_ns` (`kubernetes.rs` lines 30–51): read and parse one config
file and extract the non-empty namespace of the context named
`currentCtx`, or nothing. -/
def get_kube_ns (io : KubeIO) (filename : String) (currentCtx : String) :
    Option String :=
  (io.readFile filename).bind fun contents =>
    (io.loadYaml contents).bind fun yamlDocs =>
      if yamlDocs.isEmpty then none
      else
        (((yamlDocs.headD .badValue).index "contexts").asVec.bind
            fun contexts =>
              ((contexts.filterMap fun ctx =>
                    (ctx.index "name").asStr.map fun name => (ctx, name)).find?
                  fun p => p.2 == currentCtx).bind
                fun p => ((p.1.index "context").index "namespace").asStr).bind
          fun ns => if ns.isEmpty then none else some ns

/-- Modelled from the spec: the observable outcome of `Regex::new(pat).ok()`
followed by `re.replace(text, rep)` in the external regex crate — `none`
when the pattern fails to compile, `some none` when the replacement returns
the input unchanged (the borrowed result, no match), and `some (some r)`
when a match produced the owned replacement `r`. -/
def RegexReplace : Type :=
  String → String → String → Option (Option String)

/-- `get_kube_context_name` (`kubernetes.rs` lines 53–69): an exact literal
alias lookup first; otherwise the first alias whose anchored regex compiles
and rewrites the context to an owned result; otherwise the raw context. -/
def get_kube_context_name (re : RegexReplace) (config : KubernetesConfig)
    (kube_ctx : String) : String :=
  match config.context_aliases.lookup kube_ctx with
  | some val => val
  | none =>
      (config.context_aliases.findSome? fun kv =>
          (re ("^" ++ kv.1 ++ "$") kv.2 kube_ctx).bind fun res =>
            match res with
            | some replaced => some replaced
            | none => none).getD kube_ctx

/-- The full environment of the kubernetes `module` function: the file/yaml
oracles plus environment lookup, the home directory, path splitting
(`env::split_paths`, external), the regex oracle, the formatter oracle
(`StringFormatter`, external: built over the config and fed the resolved
context name and optional namespace), and the loaded config. -/
structure KubeContext extends KubeIO where
  getEnv : String → Option String
  getHome : Option String
  splitPaths : String → List String
  regexReplace : RegexReplace
  formatParse :
    KubernetesConfig → String → Option String → Except String (List Segment)
  config : KubernetesConfig

/-- `module` (`kubernetes.rs` lines 71–119): return nothing when disabled;
find the current context across the kube config files (nothing when
undeterminable); format the segments, returning nothing when formatting
fails; otherwise the populated module. -/
def kubernetes_module (ctx : KubeContext) : Option Module :=
  let config := ctx.config
  if config.disabled then none
  else
    ctx.getHome.bind fun home =>
      let defaultConfigFile := home ++ "/.kube/config"
      let kubeCfg := (ctx.getEnv "KUBECONFIG").getD defaultConfigFile
      ((ctx.splitPaths kubeCfg).findSome?
          (get_kube_context ctx.toKubeIO)).bind fun kubeCtx =>
        let kubeNs := (ctx.splitPaths kubeCfg).findSome? fun filename =>
          get_kube_ns ctx.toKubeIO filename kubeCtx
        match ctx.formatParse config
            (get_kube_context_name ctx.regexReplace config kubeCtx)
            kubeNs with
        | .ok segments =>
            some ((Module.new "kubernetes" "" none).set_segments segments)
        | .error _ => none

/-- C8: upstream detection failures never surface as a rendering error —
when the config is disabled, when no kube config file determines a current
context, or when template formatting fails, the kubernetes module function
returns nothing (the module is omitted entirely) instead of producing a
module that errors during rendering. -/
theorem claim_C8_upstream_failures_omit (ctx : KubeContext) :
    (ctx.config.disabled = true → kubernetes_module ctx = none) ∧
    (∀ home : String, ctx.getHome = some home →
        (ctx.splitPaths ((ctx.getEnv "KUBECONFIG").getD
            (home ++ "/.kube/config"))).findSome?
          (get_kube_context ctx.toKubeIO) = none →
        kubernetes_module ctx = none) ∧
    ((∀ name ns, ∃ e, ctx.formatParse ctx.config name ns = .error e) →
        kubernetes_module ctx = none) := by
  refine ⟨?_, ?_, ?_⟩
  · intro h
    simp [kubernetes_module, h]
  · intro home hhome hnone
    by_cases hd : ctx.config.disabled
    · simp [kubernetes_module, hd]
    · simp [kubernetes_module, hd, hhome, hnone]
  · intro h
    by_cases hd : ctx.config.disabled
    · simp [kubernetes_module, hd]
    · simp only [kubernetes_module, hd, Bool.false_eq_true, if_false]
      cases hh : ctx.getHome with
      | none => simp
      | some home =>
          simp only [Option.some_bind]
          cases hfs : (ctx.splitPaths ((ctx.getEnv "KUBECONFIG").getD
              (home ++ "/.kube/config"))).findSome?
              (get_kube_context ctx.toKubeIO) with
          | none => simp [hfs]
          | some kubeCtx =>
              simp only [hfs, Option.some_bind]
              obtain ⟨e, he⟩ := h
                (get_kube_context_name ctx.regexReplace ctx.config kubeCtx)
                ((ctx.splitPaths ((ctx.getEnv "KUBECONFIG").getD
                    (home ++ "/.kube/config"))).findSome? fun filename =>
                  get_kube_ns ctx.toKubeIO filename kubeCtx)
              rw [he]

/-- A kubernetes config section that is disabled, for the C8 witness. -/
def kubeCfgOff : KubernetesConfig :=
  { symbol := "k8s ", format := "via $symbol$context", style := "cyan bold",
    disabled := true, context_aliases := [] }

/-- The same config section with the module enabled. -/
def kubeCfgOn : KubernetesConfig :=
  { kubeCfgOff with disabled := false }

/-- An environment whose config is disabled. -/
def kubeCtxDisabled : KubeContext :=
  { readFile := fun _ => none, loadYaml := fun _ => none,
    getEnv := fun _ => none, getHome := some "/home/user",
    splitPaths := fun p => [p],
    regexReplace := fun _ _ _ => none,
    formatParse := fun _ _ _ => .ok [],
    config := kubeCfgOff }

/-- An enabled environment in which no config file yields a context. -/
def kubeCtxNoContext : KubeContext :=
  { kubeCtxDisabled with config := kubeCfgOn }

/-- An enabled environment with a readable context whose formatter fails. -/
def kubeCtxBadFormat : KubeContext :=
  { kubeCtxDisabled with
    config := kubeCfgOn,
    readFile := fun _ => some "yaml contents",
    loadYaml := fun _ =>
      some [Yaml.map [("current-context", Yaml.str "test_context")]],
    formatParse := fun _ _ _ => .error "invalid format string" }

/-- C8 witness: the module function returns nothing in all three failure
environments. -/
theorem claim_C8_upstream_failures_omit_witness :
    kubernetes_module kubeCtxDisabled = none ∧
    kubernetes_module kubeCtxNoContext = none ∧
    kubernetes_module kubeCtxBadFormat = none :=
  ⟨(claim_C8_upstream_failures_omit kubeCtxDisabled).1 rfl,
    (claim_C8_upstream_failures_omit kubeCtxNoContext).2.1 "/home/user"
      rfl rfl,
    (claim_C8_upstream_failures_omit kubeCtxBadFormat).2.2
      fun _ _ => ⟨"invalid format string", rfl⟩⟩

/-- C10: in context-alias resolution, an exact literal key match always
takes precedence; with no literal match, every alias whose pattern fails to
compile or whose replacement leaves the input unchanged is skipped (when all
are skipped the raw context comes back unchanged); and any non-raw result is
the owned replacement produced by some alias entry. -/
theorem claim_C10_context_alias_resolution (re : RegexReplace)
    (config : KubernetesConfig) (kube_ctx : String) :
    (∀ v, config.context_aliases.lookup kube_ctx = some v →
        get_kube_context_name re config kube_ctx = v) ∧
    (config.context_aliases.lookup kube_ctx = none →
      (∀ kv ∈ config.context_aliases,
          re ("^" ++ kv.1 ++ "$") kv.2 kube_ctx = none ∨
          re ("^" ++ kv.1 ++ "$") kv.2 kube_ctx = some none) →
      get_kube_context_name re config kube_ctx = kube_ctx) ∧
    (config.context_aliases.lookup kube_ctx = none →
      get_kube_context_name re config kube_ctx = kube_ctx ∨
      ∃ kv ∈ config.context_aliases,
        re ("^" ++ kv.1 ++ "$") kv.2 kube_ctx =
          some (some (get_kube_context_name re config kube_ctx))) := by
  refine ⟨?_, ?_, ?_⟩
  · intro v hv
    simp [get_kube_context_name, hv]
  · intro hnone hall
    have hfs : (config.context_aliases.findSome? fun kv =>
        (re ("^" ++ kv.1 ++ "$") kv.2 kube_ctx).bind fun res =>
          match res with
          | some replaced => some replaced
          | none => none) = none := by
      rw [List.findSome?_eq_none_iff]
      intro kv hkv
      rcases hall kv hkv with h | h <;> rw [h] <;> rfl
    simp [get_kube_context_name, hnone, hfs]
  · intro hnone
    cases hfs : (config.context_aliases.findSome? fun kv =>
        (re ("^" ++ kv.1 ++ "$") kv.2 kube_ctx).bind fun res =>
          match res with
          | some replaced => some replaced
          | none => none) with
    | none =>
        left
        simp [get_kube_context_name, hnone, hfs]
    | some r =>
        right
        have hr : get_kube_context_name re config kube_ctx = r := by
          simp [get_kube_context_name, hnone, hfs]
        obtain ⟨kv, hkvmem, hkv⟩ := List.exists_of_findSome?_eq_some hfs
        refine ⟨kv, hkvmem, ?_⟩
        rw [hr]
        cases hre : re ("^" ++ kv.1 ++ "$") kv.2 kube_ctx with
        | none => rw [hre] at hkv; simp at hkv
        | some res =>
            cases res with
            | none => rw [hre] at hkv; simp at hkv
            | some rep =>
                rw [hre] at hkv
                simp at hkv
                rw [hkv]

/-- An alias table with a literal entry and a catch-all pattern entry. -/
def kubeCfgAliases : KubernetesConfig :=
  { kubeCfgOn with
    context_aliases := [("test_context", "test_alias"), (".*", "wild")] }

/-- An alias table whose only key is not a valid regex pattern. -/
def kubeCfgBrokenRegex : KubernetesConfig :=
  { kubeCfgOn with context_aliases := [("input[.*", "this does not match")] }

/-- C10 witness: the literal alias wins even under a regex oracle that would
rewrite everything, and a table whose only pattern fails to compile leaves
the raw context unchanged. -/
theorem claim_C10_context_alias_resolution_witness :
    get_kube_context_name (fun _ _ _ => some (some "wild")) kubeCfgAliases
        "test_context" = "test_alias" ∧
    get_kube_context_name (fun _ _ _ => none) kubeCfgBrokenRegex "input" =
      "input" :=
  ⟨(claim_C10_context_alias_resolution (fun _ _ _ => some (some "wild"))
      kubeCfgAliases "test_context").1 "test_alias" (by decide),
    (claim_C10_context_alias_resolution (fun _ _ _ => none)
      kubeCfgBrokenRegex "input").2.1 (by decide) (by decide)⟩

end Starship
